import Mathlib

/-!
Verification of the turn-taking and streaming-playback coordinator of the
AI interview simulator.

The definitions below are a shallow embedding of the TypeScript sources:

* `VoiceInteractionService` (src/src/services/voice/VoiceInteractionService.ts):
  voice-activity monitoring with hysteresis (`monitorAudioLevel`), playback
  lifecycle (`playAIResponse`, `stopAIResponse`, the `onended` handler), and
  interruption detection (`monitorDuringAISpeech`);
* `AIConversationService` (the conversation service file): sentence batching
  over the streamed model reply (`handleUserResponse`), the speech queue
  processor (`processSpeechQueue`), `isCompleteSentence`, the catch/finally
  error handling and the `USER_INTERRUPTION` listener.

Modelling conventions: JavaScript strings are lists of characters; audio
levels are integer decibel readings; the cooperative scheduler is explicit —
one monitoring tick per animation frame, and `setTimeout` callbacks are
tick countdowns; network calls are parameterised by their outcome
(`Except`, or an outcome datatype for the streaming request); side effects
(event emissions, requests, log lines) are accumulated in explicit lists.
-/

namespace InterviewSim

/-- Character-list strings: the model of JavaScript strings. -/
abbrev Str := List Char

/-- Whitespace test backing the model of `String.prototype.trim`. -/
def isWS (c : Char) : Bool := c.isWhitespace

/-- Drop leading whitespace (the front half of JavaScript `trim()`). -/
def trimStart (s : Str) : Str := s.dropWhile isWS

/-- Drop trailing whitespace (the back half of JavaScript `trim()`). -/
def trimEnd (s : Str) : Str := (s.reverse.dropWhile isWS).reverse

/-- Model of `String.prototype.trim` as used throughout the sources. -/
def trim (s : Str) : Str := trimEnd (trimStart s)

/-- Delete every whitespace character.  Two texts are equal up to
whitespace normalization precisely when their `stripWS` images coincide. -/
def stripWS (s : Str) : Str := s.filter (fun c => !isWS c)

/-- The recognised sentence terminators (`sentenceEndings` in
`AIConversationService.isCompleteSentence`). -/
def sentenceEndings : Str := ['.', '!', '?', ':', ';']

/-- `AIConversationService.isCompleteSentence`: the trimmed text ends with
one of the recognised sentence terminators. -/
def isCompleteSentence (text : Str) : Bool :=
  match (trim text).getLast? with
  | some c => sentenceEndings.contains c
  | none => false

/-! ## Sentence batching over the streamed reply

State of the for-await loop of `AIConversationService.handleUserResponse`
(and the identical loop of `startConversation`): the two loop locals
`accumulatedText` and `currentSentence`, and the instance fields
`sentenceBuffer`, `sentenceCount` and `speechQueue`. -/

structure StreamState where
  accumulatedText : Str
  currentSentence : Str
  sentenceBuffer : Str
  sentenceCount : Nat
  speechQueue : List Str
deriving Repr, DecidableEq

/-- The state at the head of the streaming loop on a fresh turn: empty
locals, empty batch buffer, zero counter, freshly cleared queue. -/
def startStream : StreamState := ⟨[], [], [], 0, []⟩

/-- One iteration of the streaming loop: append the incoming fragment to
the accumulated text and the current sentence; when the current sentence is
complete, move its trimmed form (plus a space) into the batch buffer and
bump the counter; at the batch size, push the trimmed buffer into the
speech queue (when non-blank) and reset buffer and counter. -/
def stepFragment (batch : Nat) (s : StreamState) (content : Str) : StreamState :=
  let acc := s.accumulatedText ++ content
  let cur := s.currentSentence ++ content
  if isCompleteSentence cur then
    let buf := s.sentenceBuffer ++ trim cur ++ [' ']
    let cnt := s.sentenceCount + 1
    if batch ≤ cnt then
      let chunk := trim buf
      { accumulatedText := acc, currentSentence := [],
        sentenceBuffer := [], sentenceCount := 0,
        speechQueue := if 0 < chunk.length then s.speechQueue ++ [chunk] else s.speechQueue }
    else
      { accumulatedText := acc, currentSentence := [],
        sentenceBuffer := buf, sentenceCount := cnt,
        speechQueue := s.speechQueue }
  else
    { s with accumulatedText := acc, currentSentence := cur }

/-- The whole streaming loop, folding `stepFragment` over the arriving
fragments. -/
def runStream (batch : Nat) (s : StreamState) : List Str → StreamState
  | [] => s
  | f :: fs => runStream batch (stepFragment batch s f) fs

/-- End-of-stream flush (`handleUserResponse`, directly after the loop): a
leftover partial sentence joins the batch buffer, and a non-blank buffer is
pushed as a final chunk.  The source leaves `sentenceBuffer` and
`sentenceCount` to be reset later by `processSpeechQueue`, so neither is
cleared here. -/
def endFlush (s : StreamState) : StreamState :=
  let s1 :=
    if 0 < (trim s.currentSentence).length then
      { s with sentenceBuffer := s.sentenceBuffer ++ trim s.currentSentence,
               sentenceCount := s.sentenceCount + 1 }
    else s
  if 0 < (trim s1.sentenceBuffer).length then
    { s1 with speechQueue := s1.speechQueue ++ [trim s1.sentenceBuffer] }
  else s1

/-! ## Voice-activity monitoring (`monitorAudioLevel`)

The `checkAudioLevel` closure runs once per animation frame; the silence
timeout installed by `setTimeout` is modelled as a tick countdown: a
timeout set with delay `d` runs in place of the `d`-th following frame
(matching the specification scenario in which a delay of 2 samples set at
index 5 closes the span at index 7). -/

structure VadConfig where
  voiceThreshold : Int
  silenceThreshold : Int
  silenceDelay : Nat
deriving Repr, DecidableEq

/-- The thresholds of `VoiceInteractionService` (voice −15 dB, silence
−50 dB) with the silence delay measured as 2 monitoring ticks, the
configuration of the specification scenario. -/
def scenarioVad : VadConfig := ⟨-15, -50, 2⟩

structure MonitorState where
  isSpeaking : Bool
  isMonitoring : Bool
  silenceTimer : Option Nat
deriving Repr, DecidableEq

/-- The state set up on entry to `monitorAudioLevel`: monitoring on, no
open span, no pending silence timeout. -/
def initMonitor : MonitorState := ⟨false, true, none⟩

inductive MEvent where
  | speechStart
  | speechEnd
deriving Repr, DecidableEq

/-- The body of one `checkAudioLevel` frame: a sample strictly above the
voice threshold clears any pending silence timeout and opens a span if none
is open (starting the recorder and emitting `USER_SPEECH_START`); a sample
at or below the silence threshold while a span is open installs the silence
timeout if none is pending; every other sample (the dead zone between the
thresholds) changes nothing — in particular it does not cancel a pending
timeout, since only the strictly-above-voice branch clears it. -/
def monitorFrame (cfg : VadConfig) (s : MonitorState) (db : Int) :
    MonitorState × List MEvent :=
  if cfg.voiceThreshold < db then
    if s.isSpeaking then
      ({ s with silenceTimer := none }, [])
    else
      ({ s with silenceTimer := none, isSpeaking := true }, [MEvent.speechStart])
  else if db ≤ cfg.silenceThreshold && s.isSpeaking then
    match s.silenceTimer with
    | none => ({ s with silenceTimer := some cfg.silenceDelay }, [])
    | some _ => (s, [])
  else
    (s, [])

/-- One monitoring tick: nothing happens when monitoring is off; a pending
silence timeout whose countdown is exhausted runs in place of the frame,
closing the span (recorder stopped, `USER_SPEECH_END` emitted, monitoring
stopped); otherwise the countdown decreases and the frame body runs. -/
def monitorStep (cfg : VadConfig) (s : MonitorState) (db : Int) :
    MonitorState × List MEvent :=
  if !s.isMonitoring then (s, [])
  else
    match s.silenceTimer with
    | some n =>
      if n ≤ 1 then
        (⟨false, false, none⟩, [MEvent.speechEnd])
      else
        monitorFrame cfg { s with silenceTimer := some (n - 1) } db
    | none => monitorFrame cfg s db

/-- Fold the monitoring tick over a sequence of level samples, collecting
the emitted events. -/
def monitorRun (cfg : VadConfig) (s : MonitorState) : List Int → MonitorState × List MEvent
  | [] => (s, [])
  | db :: rest =>
    let p := monitorStep cfg s db
    let q := monitorRun cfg p.1 rest
    (q.1, p.2 ++ q.2)

/-! ## The speech-queue processor (`processSpeechQueue`)

The loop shifts one chunk at a time from the front of the queue,
synthesises it, plays it through `playAIResponse`, and awaits the
`AI_SPEECH_END` signal before advancing.  Each chunk is tagged with the
outcome of its external calls: a failed synthesis request is caught and the
loop continues with the next chunk; a decode failure inside
`playAIResponse` emits `AI_SPEECH_END` before the loop registers its
once-listener for that signal, so the await never resolves and the loop
blocks. -/

inductive ChunkOutcome where
  | ok
  | synthErr
  | decodeErr
deriving Repr, DecidableEq

inductive QEvent where
  | synthReq (chunk : Str)
  | playStart (chunk : Str)
  | aiSpeechEnd (chunk : Str)
deriving Repr, DecidableEq

/-- The event trace of one `processSpeechQueue` run over the queue
contents.  A successful chunk contributes its synthesis request, its
playback start and its completion signal, in that order, and only then does
the loop move to the next chunk. -/
def processQueueTrace : List (Str × ChunkOutcome) → List QEvent
  | [] => []
  | (ch, ChunkOutcome.ok) :: rest =>
    QEvent.synthReq ch :: QEvent.playStart ch :: QEvent.aiSpeechEnd ch ::
      processQueueTrace rest
  | (ch, ChunkOutcome.synthErr) :: rest =>
    QEvent.synthReq ch :: processQueueTrace rest
  | (ch, ChunkOutcome.decodeErr) :: _ =>
    [QEvent.synthReq ch, QEvent.aiSpeechEnd ch]

/-- The chunks whose playback actually started, in trace order. -/
def playStarts : List QEvent → List Str
  | [] => []
  | QEvent.playStart c :: t => c :: playStarts t
  | _ :: t => playStarts t

/-- The chunks for which a synthesis request was issued, in trace order. -/
def synthReqs : List QEvent → List Str
  | [] => []
  | QEvent.synthReq c :: t => c :: synthReqs t
  | _ :: t => synthReqs t

/-- Number of playback starts in a trace. -/
def startCount : List QEvent → Nat
  | [] => 0
  | QEvent.playStart _ :: t => startCount t + 1
  | _ :: t => startCount t

/-- Number of `AI_SPEECH_END` signals in a trace. -/
def endCount : List QEvent → Nat
  | [] => 0
  | QEvent.aiSpeechEnd _ :: t => endCount t + 1
  | _ :: t => endCount t

/-! ## Playback lifecycle (`playAIResponse`, `stopAIResponse`, `onended`)

The `audioSource` field holds the current `AudioBufferSourceNode`, if any,
with its status: created but never started (a decode failure struck before
`start`), playing, or finished naturally (the field is not nulled by the
`onended` handler).  `endedQueued` records that the platform `ended` event
of a node stopped by `stop()` is queued but its `onended` handler has not
run yet — per the Web Audio API, `stop()` on a started node dispatches
`ended`, which runs the handler installed in `playAIResponse`. -/

inductive SourceStatus where
  | fresh
  | playing
  | done
deriving Repr, DecidableEq

inductive VEvent where
  | aiSpeechStart
  | aiSpeechEnd
  | userInterruption
deriving Repr, DecidableEq

structure PlayState where
  audioSource : Option SourceStatus
  endedQueued : Bool
deriving Repr, DecidableEq

def initPlay : PlayState := ⟨none, false⟩

/-- `playAIResponse`: the new source node is assigned to `audioSource`
before the decode await.  On a successful decode, `AI_SPEECH_START` is
emitted synchronously and the node starts; on a decode failure the catch
block emits `AI_SPEECH_END` (the error is absorbed, never thrown), leaving
a never-started node in the field. -/
def playAIResponse (decodeOk : Bool) (s : PlayState) : PlayState × List VEvent :=
  if decodeOk then
    ({ s with audioSource := some SourceStatus.playing }, [VEvent.aiSpeechStart])
  else
    ({ s with audioSource := some SourceStatus.fresh }, [VEvent.aiSpeechEnd])

/-- The `onended` handler firing on natural completion of the playing
node: emits `AI_SPEECH_END` once and leaves the finished node in the
`audioSource` field (the source never nulls it there). -/
def naturalEnd (s : PlayState) : PlayState × List VEvent :=
  match s.audioSource with
  | some SourceStatus.playing =>
    ({ s with audioSource := some SourceStatus.done }, [VEvent.aiSpeechEnd])
  | _ => (s, [])

/-- `stopAIResponse`: a no-op without a held node.  On a never-started
node, `stop()` throws `InvalidStateError`, the catch logs it, and both the
nulling and the emit are skipped.  On a playing node, `stop()` halts
playback and queues the platform `ended` event, the field is nulled and
`AI_SPEECH_END` is emitted directly.  On a node that already finished
naturally, `stop()` is accepted without a new `ended` event, and the direct
emit duplicates the one the `onended` handler already produced. -/
def stopAIResponse (s : PlayState) : PlayState × List VEvent :=
  match s.audioSource with
  | none => (s, [])
  | some SourceStatus.fresh => (s, [])
  | some SourceStatus.playing =>
    ({ audioSource := none, endedQueued := true }, [VEvent.aiSpeechEnd])
  | some SourceStatus.done =>
    ({ audioSource := none, endedQueued := s.endedQueued }, [VEvent.aiSpeechEnd])

/-- Delivery of the queued `ended` event of a stopped node: its `onended`
handler runs and emits `AI_SPEECH_END`. -/
def deliverEnded (s : PlayState) : PlayState × List VEvent :=
  if s.endedQueued then ({ s with endedQueued := false }, [VEvent.aiSpeechEnd])
  else (s, [])

inductive PlayAct where
  | play (decodeOk : Bool)
  | natural
  | stop
  | ended
deriving Repr, DecidableEq

def playApply : PlayAct → PlayState → PlayState × List VEvent
  | PlayAct.play ok, s => playAIResponse ok s
  | PlayAct.natural, s => naturalEnd s
  | PlayAct.stop, s => stopAIResponse s
  | PlayAct.ended, s => deliverEnded s

/-- Run a sequence of playback-lifecycle steps, collecting all emitted
events. -/
def runPlay (s : PlayState) : List PlayAct → PlayState × List VEvent
  | [] => (s, [])
  | a :: rest =>
    let p := playApply a s
    let q := runPlay p.1 rest
    (q.1, p.2 ++ q.2)

/-- Number of `AI_SPEECH_END` emissions in a trace. -/
def endEmissions (es : List VEvent) : Nat := es.count VEvent.aiSpeechEnd

/-! ## Session-level arming (mutual exclusion of the audio actors)

A coarse view of one session recording which audio actors are armed: the
`monitorAudioLevel` frame loop (`isMonitoring`), the
`monitorDuringAISpeech` frame loop, active AI playback, and whether the
500 ms monitor re-arm scheduled by the `onended` handler is pending.  Each
action is the session-level effect of one code path of
`VoiceInteractionService`:

* `playOk` — `playAIResponse` succeeding: playback starts and
  `monitorDuringAISpeech` is launched; the function never touches
  `isMonitoring`, so a running voice-monitor loop keeps running;
* `segmentEnd` — the `onended` handler: playback is over and a
  `monitorAudioLevel` call is scheduled 500 ms later; nothing stops the
  `monitorDuringAISpeech` frame chain, which keeps rescheduling itself
  until it detects an interruption;
* `rearmFires` — the scheduled `monitorAudioLevel()` runs and sets
  `isMonitoring` to true. -/

structure Session where
  monitorArmed : Bool
  interruptArmed : Bool
  playing : Bool
  rearmPending : Bool
deriving Repr, DecidableEq

/-- The session just before an AI turn begins speaking: the voice monitor
stopped itself when the user span closed, nothing is playing. -/
def idleSession : Session := ⟨false, false, false, false⟩

inductive SessAct where
  | playOk
  | segmentEnd
  | rearmFires
deriving Repr, DecidableEq

def sessStep : SessAct → Session → Session
  | SessAct.playOk, s => { s with playing := true, interruptArmed := true }
  | SessAct.segmentEnd, s =>
    if s.playing then { s with playing := false, rearmPending := true } else s
  | SessAct.rearmFires, s =>
    if s.rearmPending then { s with rearmPending := false, monitorArmed := true } else s

def sessRun (s : Session) : List SessAct → Session
  | [] => s
  | a :: rest => sessRun (sessStep a s) rest

/-- How many of the three audio actors are armed: the voice-activity
monitor loop, the interruption-detection loop, and the playback controller
as active player. -/
def armedCount (s : Session) : Nat :=
  (if s.monitorArmed then 1 else 0) + (if s.interruptArmed then 1 else 0) +
    (if s.playing then 1 else 0)

/-! ## The conversation service (`handleUserResponse` and its listeners) -/

inductive Role where
  | system
  | user
  | assistant
deriving Repr, DecidableEq

structure Turn where
  role : Role
  content : Str
deriving Repr, DecidableEq

/-- A captured audio blob, abstracted to its byte size. -/
structure Blob where
  size : Nat
deriving Repr, DecidableEq

structure ConvState where
  conversationHistory : List Turn
  isProcessing : Bool
  isInterviewActive : Bool
  speechQueue : List Str
  isProcessingQueue : Bool
  sentenceCount : Nat
  sentenceBuffer : Str
  targetSentenceBatch : Nat
deriving Repr, DecidableEq

inductive ErrKind where
  | abortError
  | otherError
deriving Repr, DecidableEq

/-- Outcome of the streaming completion request: either the stream runs to
completion delivering all its fragments, or it throws after delivering a
prefix of them. -/
inductive StreamOutcome where
  | completed (frags : List Str)
  | failed (frags : List Str) (kind : ErrKind)
deriving Repr, DecidableEq

/-- Externally visible actions of one `handleUserResponse` run: the
transcription request, `conversationUpdate` emissions, the streaming
completion request, the `console.error` line at the head of the catch
block, and the spoken apology. -/
inductive CEffect where
  | transcriptionRequest
  | conversationUpdate (history : List Turn)
  | completionRequest
  | logHandlerError
  | apology
deriving Repr, DecidableEq

/-- `getConversationHistory`: the externally exposed history, with the
system turn filtered out. -/
def getConversationHistory (conv : ConvState) : List Turn :=
  conv.conversationHistory.filter (fun t => t.role != Role.system)

/-- View of the conversation state as the streaming-loop state: the loop
locals start empty; the instance fields carry over. -/
def toStreamState (conv : ConvState) : StreamState :=
  { accumulatedText := [], currentSentence := [],
    sentenceBuffer := conv.sentenceBuffer, sentenceCount := conv.sentenceCount,
    speechQueue := conv.speechQueue }

/-- Write the instance fields of the streaming-loop state back into the
conversation state. -/
def ofStreamState (conv : ConvState) (st : StreamState) : ConvState :=
  { conv with sentenceBuffer := st.sentenceBuffer,
              sentenceCount := st.sentenceCount,
              speechQueue := st.speechQueue }

/-- The catch block of `handleUserResponse` together with the finally
clause.  Every caught failure is first logged by `console.error`; an
`AbortError` then returns at once (no state is cleared, no apology); any
other failure clears the speech queue and the sentence batch, drops the
queue-processing latch and, while the interview is active, speaks the
fixed apology.  The finally clause releases the processing latch. -/
def runCatch (conv : ConvState) (kind : ErrKind) : ConvState × List CEffect :=
  match kind with
  | ErrKind.abortError =>
    ({ conv with isProcessing := false }, [CEffect.logHandlerError])
  | ErrKind.otherError =>
    let c := { conv with speechQueue := [], sentenceBuffer := [], sentenceCount := 0,
                         isProcessingQueue := false, isProcessing := false }
    if c.isInterviewActive then (c, [CEffect.logHandlerError, CEffect.apology])
    else (c, [CEffect.logHandlerError])

/-- `AIConversationService.handleUserResponse`, parameterised by the
outcomes of the two network calls.  The three guards discard the event
without any effect: an absent or empty blob, a blob under 1024 bytes
(likely echo), and an ended interview.  Past the guards, the processing
latch is taken; a transcription failure goes to the catch block; blank
transcribed text releases the latch and returns; otherwise the user turn
is appended to the history, the speech queue is cleared, and the streaming
loop runs over the delivered fragments — to completion with the end-of-
stream flush and the assistant turn appended, or into the catch block when
the stream fails part-way. -/
def handleUserResponse (conv : ConvState) (blob : Option Blob)
    (transcription : Except ErrKind Str) (stream : StreamOutcome) :
    ConvState × List CEffect :=
  match blob with
  | none => (conv, [])
  | some b =>
    if b.size = 0 then (conv, [])
    else if b.size < 1024 then (conv, [])
    else if !conv.isInterviewActive then (conv, [])
    else
      let conv1 := { conv with isProcessing := true }
      match transcription with
      | Except.error k =>
        let p := runCatch conv1 k
        (p.1, CEffect.transcriptionRequest :: p.2)
      | Except.ok text =>
        if trim text = [] then
          ({ conv1 with isProcessing := false }, [CEffect.transcriptionRequest])
        else
          let conv2 := { conv1 with
            conversationHistory := conv1.conversationHistory ++ [⟨Role.user, text⟩] }
          let eff0 := [CEffect.transcriptionRequest,
                       CEffect.conversationUpdate (getConversationHistory conv2)]
          let conv3 := { conv2 with speechQueue := [] }
          match stream with
          | StreamOutcome.completed frags =>
            let st := endFlush (runStream conv3.targetSentenceBatch (toStreamState conv3) frags)
            let conv4 := ofStreamState conv3 st
            let conv5 := { conv4 with
              conversationHistory :=
                conv4.conversationHistory ++ [⟨Role.assistant, st.accumulatedText⟩],
              isProcessing := false }
            (conv5, eff0 ++ [CEffect.completionRequest,
                             CEffect.conversationUpdate (getConversationHistory conv5)])
          | StreamOutcome.failed frags k =>
            let st := runStream conv3.targetSentenceBatch (toStreamState conv3) frags
            let conv4 := ofStreamState conv3 st
            let p := runCatch conv4 k
            (p.1, eff0 ++ CEffect.completionRequest :: p.2)

/-- The payload of the `USER_INTERRUPTION` emission in
`monitorDuringAISpeech`: the event is emitted with no argument, so the
listener's `audioBlob` parameter is `undefined`. -/
def interruptionPayload : Option Blob := none

/-- The `USER_INTERRUPTION` listener installed in the
`AIConversationService` constructor: when no response is being processed,
it forwards the event payload to `handleUserResponse`. -/
def onUserInterruption (conv : ConvState) (transcription : Except ErrKind Str)
    (stream : StreamOutcome) : ConvState × List CEffect :=
  if conv.isProcessing then (conv, [])
  else handleUserResponse conv interruptionPayload transcription stream

/-- A conversation state in the middle of an active interview with no
response in flight and everything else at its reset values. -/
def convActive : ConvState :=
  { conversationHistory := [], isProcessing := false, isInterviewActive := true,
    speechQueue := [], isProcessingQueue := false, sentenceCount := 0,
    sentenceBuffer := [], targetSentenceBatch := 4 }

/-- A captured blob above the 1024-byte echo floor. -/
def blobOk : Blob := ⟨2048⟩

/-! # Theorems -/

/-! ## Whitespace and trimming lemmas -/

theorem stripWS_append (a b : Str) : stripWS (a ++ b) = stripWS a ++ stripWS b :=
  List.filter_append ..

theorem stripWS_dropWhile (s : Str) : stripWS (s.dropWhile isWS) = stripWS s := by
  induction s with
  | nil => rfl
  | cons c t ih =>
    by_cases h : isWS c
    · have hc : stripWS (c :: t) = stripWS t := by simp [stripWS, List.filter_cons, h]
      rw [List.dropWhile_cons, if_pos h, ih, hc]
    · simp [List.dropWhile_cons, h]

theorem stripWS_trimStart (s : Str) : stripWS (trimStart s) = stripWS s :=
  stripWS_dropWhile s

theorem stripWS_reverse (s : Str) : stripWS s.reverse = (stripWS s).reverse :=
  List.filter_reverse ..

theorem stripWS_trimEnd (s : Str) : stripWS (trimEnd s) = stripWS s := by
  unfold trimEnd
  rw [stripWS_reverse, stripWS_dropWhile, stripWS_reverse, List.reverse_reverse]

theorem stripWS_trim (s : Str) : stripWS (trim s) = stripWS s := by
  unfold trim
  rw [stripWS_trimEnd, stripWS_trimStart]

theorem stripWS_eq_nil_of_trim {s : Str} (h : trim s = []) : stripWS s = [] := by
  rw [← stripWS_trim s, h]
  rfl

theorem stripWS_space : stripWS [' '] = [] := by decide

/-! ## Streamed-reply content preservation (towards C5) -/

theorem stepFragment_acc (batch : Nat) (s : StreamState) (c : Str) :
    (stepFragment batch s c).accumulatedText = s.accumulatedText ++ c := by
  unfold stepFragment
  by_cases hc : isCompleteSentence (s.currentSentence ++ c) <;>
    by_cases hb : batch ≤ s.sentenceCount + 1 <;>
      simp [hc, hb]

theorem stepFragment_strip (batch : Nat) (s : StreamState) (c : Str) :
    stripWS ((stepFragment batch s c).speechQueue.flatten ++
        (stepFragment batch s c).sentenceBuffer ++ (stepFragment batch s c).currentSentence) =
      stripWS (s.speechQueue.flatten ++ s.sentenceBuffer ++ s.currentSentence) ++ stripWS c := by
  unfold stepFragment
  by_cases hc : isCompleteSentence (s.currentSentence ++ c)
  · by_cases hb : batch ≤ s.sentenceCount + 1
    · by_cases hq :
        0 < (trim (s.sentenceBuffer ++ trim (s.currentSentence ++ c) ++ [' '])).length
      · simp only [hc, hb, hq, if_true, if_pos]
        simp only [List.flatten_append, List.flatten_cons, List.flatten_nil,
          List.append_nil, stripWS_append, stripWS_trim, stripWS_space,
          List.append_assoc]
      · simp only [hc, hb, hq, if_true, if_false, if_neg]
        have h0 : stripWS (s.sentenceBuffer ++ trim (s.currentSentence ++ c) ++ [' ']) = [] :=
          stripWS_eq_nil_of_trim (by
            rcases List.eq_nil_or_concat
                (trim (s.sentenceBuffer ++ trim (s.currentSentence ++ c) ++ [' '])) with
              h | ⟨l, a, h⟩
            · exact h
            · exfalso; apply hq; rw [h]; simp)
        rw [stripWS_append, stripWS_append, stripWS_trim, stripWS_space,
          List.append_nil] at h0
        rcases List.append_eq_nil.mp h0 with ⟨h1, h2⟩
        rw [stripWS_append] at h2
        rcases List.append_eq_nil.mp h2 with ⟨h3, h4⟩
        simp [stripWS_append, h1, h3, h4]
    · simp only [hc, hb, if_true, if_false, if_neg]
      simp only [stripWS_append, stripWS_trim, stripWS_space, List.append_nil,
        List.append_assoc]
  · simp only [hc, if_neg, if_false]
    simp [stripWS_append, List.append_assoc]

theorem runStream_acc (batch : Nat) (fs : List Str) : ∀ s : StreamState,
    (runStream batch s fs).accumulatedText = s.accumulatedText ++ fs.flatten := by
  induction fs with
  | nil => intro s; simp [runStream]
  | cons f fs ih =>
    intro s
    rw [runStream, ih (stepFragment batch s f), stepFragment_acc, List.flatten_cons,
      List.append_assoc]

theorem runStream_strip (batch : Nat) (fs : List Str) : ∀ s : StreamState,
    stripWS ((runStream batch s fs).speechQueue.flatten ++
        (runStream batch s fs).sentenceBuffer ++ (runStream batch s fs).currentSentence) =
      stripWS (s.speechQueue.flatten ++ s.sentenceBuffer ++ s.currentSentence) ++
        stripWS fs.flatten := by
  induction fs with
  | nil => intro s; simp [runStream, stripWS]
  | cons f fs ih =>
    intro s
    rw [runStream, ih (stepFragment batch s f), stepFragment_strip, List.flatten_cons]
    simp [stripWS_append, List.append_assoc]

theorem endFlush_queue (s : StreamState) :
    stripWS ((endFlush s).speechQueue.flatten) =
      stripWS (s.speechQueue.flatten ++ s.sentenceBuffer ++ s.currentSentence) := by
  unfold endFlush
  by_cases h1 : 0 < (trim s.currentSentence).length
  · simp only [h1, if_true, if_pos]
    by_cases h2 : 0 < (trim (s.sentenceBuffer ++ trim s.currentSentence)).length
    · simp only [h2, if_true, if_pos]
      simp [stripWS_append, stripWS_trim, List.append_assoc]
    · simp only [h2, if_false, if_neg]
      have h0 : stripWS (s.sentenceBuffer ++ trim s.currentSentence) = [] :=
        stripWS_eq_nil_of_trim (by
          rcases List.eq_nil_or_concat (trim (s.sentenceBuffer ++ trim s.currentSentence)) with
            h | ⟨l, a, h⟩
          · exact h
          · exfalso; apply h2; rw [h]; simp)
      rw [stripWS_append, stripWS_trim] at h0
      rcases List.append_eq_nil.mp h0 with ⟨h3, h4⟩
      simp [stripWS_append, h3, h4]
  · have hcur : stripWS s.currentSentence = [] :=
      stripWS_eq_nil_of_trim (by
        rcases List.eq_nil_or_concat (trim s.currentSentence) with h | ⟨l, a, h⟩
        · exact h
        · exfalso; apply h1; rw [h]; simp)
    simp only [h1, if_false, if_neg]
    by_cases h2 : 0 < (trim s.sentenceBuffer).length
    · simp only [h2, if_true, if_pos]
      simp [stripWS_append, stripWS_trim, hcur]
    · simp only [h2, if_false, if_neg]
      have h0 : stripWS s.sentenceBuffer = [] :=
        stripWS_eq_nil_of_trim (by
          rcases List.eq_nil_or_concat (trim s.sentenceBuffer) with h | ⟨l, a, h⟩
          · exact h
          · exfalso; apply h2; rw [h]; simp)
      simp [stripWS_append, h0, hcur]

/-- C5: for every streamed reply that runs to completion, the
concatenation of all SpeechChunks enqueued for it (including the
end-of-stream flush of any remaining partial sentence) equals the full
reply text up to whitespace normalization, and the full reply text is the
concatenation of the delivered fragments — no spoken content is dropped,
even for a reply with no sentence terminator at all. -/
theorem reply_fully_enqueued (batch : Nat) (frags : List Str) :
    stripWS ((endFlush (runStream batch startStream frags)).speechQueue.flatten) =
      stripWS ((runStream batch startStream frags).accumulatedText) ∧
    (runStream batch startStream frags).accumulatedText = frags.flatten := by
  have hacc := runStream_acc batch frags startStream
  have hstrip := runStream_strip batch frags startStream
  have hacc0 : (runStream batch startStream frags).accumulatedText = frags.flatten := by
    simpa [startStream] using hacc
  refine ⟨?_, hacc0⟩
  rw [endFlush_queue, hstrip, hacc0]
  simp [startStream, stripWS]

/-! ## Trimming and sentence terminators (towards C6) -/

theorem dropWhile_concat_not_ws {c : Char} (h : isWS c = false) (a : Str) :
    (a ++ [c]).dropWhile isWS = a.dropWhile isWS ++ [c] := by
  induction a with
  | nil => simp [List.dropWhile_cons, h]
  | cons x t ih =>
    by_cases hx : isWS x
    · simp [List.dropWhile_cons, hx, ih]
    · simp [List.dropWhile_cons, hx]

theorem dropWhile_append_of_eq_nil {a : Str} (h : a.dropWhile isWS = []) (b : Str) :
    (a ++ b).dropWhile isWS = b.dropWhile isWS := by
  induction a with
  | nil => rfl
  | cons x t ih =>
    by_cases hx : isWS x
    · rw [List.dropWhile_cons, if_pos hx] at h
      simpa [List.dropWhile_cons, hx] using ih h
    · rw [List.dropWhile_cons, if_neg hx] at h
      exact absurd h (by simp)

theorem dropWhile_append_of_ne_nil {a : Str} (h : a.dropWhile isWS ≠ []) (b : Str) :
    (a ++ b).dropWhile isWS = a.dropWhile isWS ++ b := by
  induction a with
  | nil => exact absurd rfl h
  | cons x t ih =>
    by_cases hx : isWS x
    · rw [List.dropWhile_cons, if_pos hx] at h
      simpa [List.dropWhile_cons, hx] using ih h
    · simp [List.dropWhile_cons, hx]

theorem trimEnd_concat_ws {c : Char} (h : isWS c = true) (s : Str) :
    trimEnd (s ++ [c]) = trimEnd s := by
  unfold trimEnd
  simp [List.dropWhile_cons, h]

theorem trimEnd_concat_not_ws {c : Char} (h : isWS c = false) (s : Str) :
    trimEnd (s ++ [c]) = s ++ [c] := by
  unfold trimEnd
  simp [List.dropWhile_cons, h]

theorem trim_concat_not_ws {c : Char} (h : isWS c = false) (a : Str) :
    trim (a ++ [c]) = trimStart a ++ [c] := by
  unfold trim trimStart
  rw [show (a ++ [c]).dropWhile isWS = a.dropWhile isWS ++ [c] from
    dropWhile_concat_not_ws h a]
  exact trimEnd_concat_not_ws h _

theorem trim_concat_ws {c : Char} (h : isWS c = true) (s : Str) :
    trim (s ++ [c]) = trim s := by
  unfold trim trimStart
  by_cases hs : s.dropWhile isWS = []
  · rw [dropWhile_append_of_eq_nil hs, hs]
    simp [List.dropWhile_cons, h, trimEnd]
  · rw [dropWhile_append_of_ne_nil hs]
    exact trimEnd_concat_ws h _

theorem space_is_ws : isWS ' ' = true := by decide

theorem mem_sentenceEndings_not_ws : ∀ c ∈ sentenceEndings, isWS c = false := by decide

/-- A string ending in a recognised terminator is a complete sentence. -/
theorem isCompleteSentence_concat {t : Char} (ht : sentenceEndings.contains t)
    (hw : isWS t = false) (x : Str) : isCompleteSentence (x ++ [t]) = true := by
  unfold isCompleteSentence
  rw [trim_concat_not_ws hw, List.getLast?_concat]
  exact ht

/-- The chunk flushed at a batch boundary — the trimmed batch buffer,
whose tail is the trimmed completed sentence followed by one space — is
itself a complete sentence and non-empty. -/
theorem trim_chunk_complete {cur : Str} (h : isCompleteSentence cur = true) (buf : Str) :
    isCompleteSentence (trim (buf ++ trim cur ++ [' '])) = true ∧
      0 < (trim (buf ++ trim cur ++ [' '])).length := by
  unfold isCompleteSentence at h
  rcases List.eq_nil_or_concat (trim cur) with hn | ⟨pre, t, hpre⟩
  · rw [hn] at h
    simp at h
  · rw [List.concat_eq_append] at hpre
    rw [hpre, List.getLast?_concat] at h
    have hw : isWS t = false :=
      mem_sentenceEndings_not_ws t (by simpa using h)
    have hb : buf ++ trim cur ++ [' '] = (buf ++ pre ++ [t]) ++ [' '] := by
      rw [hpre]; simp [List.append_assoc]
    rw [hb, trim_concat_ws space_is_ws, trim_concat_not_ws hw]
    refine ⟨isCompleteSentence_concat h hw _, ?_⟩
    simp

/-- `stepFragment` only enqueues complete sentences. -/
theorem stepFragment_queue_complete (batch : Nat) (s : StreamState) (c : Str)
    (h : ∀ ch ∈ s.speechQueue, isCompleteSentence ch = true) :
    ∀ ch ∈ (stepFragment batch s c).speechQueue, isCompleteSentence ch = true := by
  unfold stepFragment
  by_cases hc : isCompleteSentence (s.currentSentence ++ c)
  · by_cases hb : batch ≤ s.sentenceCount + 1
    · have hch := trim_chunk_complete hc s.sentenceBuffer
      simp only [hc, hb, if_true, if_pos, hch.2]
      intro ch hmem
      rcases List.mem_append.mp hmem with hq | hnew
      · exact h ch hq
      · rw [List.mem_singleton.mp hnew]
        exact hch.1
    · simpa [hc, hb] using h
  · simpa [hc] using h

theorem runStream_queue_complete (batch : Nat) (fs : List Str) : ∀ s : StreamState,
    (∀ ch ∈ s.speechQueue, isCompleteSentence ch = true) →
    ∀ ch ∈ (runStream batch s fs).speechQueue, isCompleteSentence ch = true := by
  induction fs with
  | nil => intro s h; simpa [runStream] using h
  | cons f fs ih =>
    intro s h
    rw [runStream]
    exact ih (stepFragment batch s f) (stepFragment_queue_complete batch s f h)

/-- C6: every SpeechChunk enqueued before the stream has ended ends, after
trimming, on one of the recognised sentence terminators — partial
sentences stay in the pending buffer and are never enqueued mid-stream. -/
theorem chunk_ends_on_terminator (batch : Nat) (frags : List Str) :
    ∀ ch ∈ (runStream batch startStream frags).speechQueue, isCompleteSentence ch = true :=
  runStream_queue_complete batch frags startStream (by intro ch hch; simp [startStream] at hch)

/-- Witness for C6 at a concrete input: the single fragment of the text
Hi. is enqueued at batch size one and indeed ends on a terminator. -/
theorem chunk_ends_on_terminator_witness : isCompleteSentence ['H', 'i', '.'] = true :=
  chunk_ends_on_terminator 1 [['H', 'i', '.']] ['H', 'i', '.'] (by decide)

/-! ## Voice-activity monitor lemmas (towards C3) -/

theorem monitorRun_not_monitoring (cfg : VadConfig) (ls : List Int) :
    ∀ s : MonitorState, s.isMonitoring = false → monitorRun cfg s ls = (s, []) := by
  induction ls with
  | nil => intro s _; rfl
  | cons db rest ih =>
    intro s h
    simp only [monitorRun, monitorStep, h, Bool.not_false, if_true]
    simpa using ih s h

theorem monitorStep_speaking_cases (cfg : VadConfig) (s : MonitorState) (db : Int)
    (hm : s.isMonitoring = true) (hs : s.isSpeaking = true) :
    ((monitorStep cfg s db).1.isSpeaking = true ∧
      (monitorStep cfg s db).1.isMonitoring = true ∧ (monitorStep cfg s db).2 = []) ∨
    monitorStep cfg s db = (⟨false, false, none⟩, [MEvent.speechEnd]) := by
  unfold monitorStep
  rw [hm]
  cases ht : s.silenceTimer with
  | none =>
    left
    unfold monitorFrame
    by_cases hv : cfg.voiceThreshold < db
    · simp [hv, hs, hm]
    · by_cases hsl : db ≤ cfg.silenceThreshold
      · simp [hv, hsl, hs, hm, ht]
      · simp [hv, hsl, hs, hm]
  | some n =>
    by_cases hn : n ≤ 1
    · right; simp [hn]
    · left
      unfold monitorFrame
      by_cases hv : cfg.voiceThreshold < db
      · simp [hn, hv, hs, hm]
      · by_cases hsl : db ≤ cfg.silenceThreshold
        · simp [hn, hv, hsl, hs, hm]
        · simp [hn, hv, hsl, hs, hm]

theorem monitorRun_speaking (cfg : VadConfig) (ls : List Int) :
    ∀ s : MonitorState, s.isMonitoring = true → s.isSpeaking = true →
    (monitorRun cfg s ls).2 = [] ∨ (monitorRun cfg s ls).2 = [MEvent.speechEnd] := by
  induction ls with
  | nil => intro s _ _; left; rfl
  | cons db rest ih =>
    intro s hm hs
    rcases monitorStep_speaking_cases cfg s db hm hs with ⟨h1, h2, h3⟩ | heq
    · simp only [monitorRun]
      rcases ih (monitorStep cfg s db).1 h2 h1 with h | h <;> simp [h3, h]
    · simp only [monitorRun, heq]
      rw [monitorRun_not_monitoring cfg rest ⟨false, false, none⟩ rfl]
      right; rfl

theorem monitorStep_idle_quiet (cfg : VadConfig) (s : MonitorState) (db : Int)
    (hm : s.isMonitoring = true) (hs : s.isSpeaking = false) (ht : s.silenceTimer = none)
    (hdb : ¬ cfg.voiceThreshold < db) : monitorStep cfg s db = (s, []) := by
  unfold monitorStep monitorFrame
  rw [hm, ht]
  simp [hdb, hs]

theorem monitorStep_idle_open (cfg : VadConfig) (s : MonitorState) (db : Int)
    (hm : s.isMonitoring = true) (hs : s.isSpeaking = false) (ht : s.silenceTimer = none)
    (hdb : cfg.voiceThreshold < db) :
    monitorStep cfg s db =
      ({ s with silenceTimer := none, isSpeaking := true }, [MEvent.speechStart]) := by
  unfold monitorStep monitorFrame
  rw [hm, ht]
  simp [hdb, hs]

theorem monitorRun_idle (cfg : VadConfig) (ls : List Int) :
    ∀ s : MonitorState, s.isMonitoring = true → s.isSpeaking = false →
      s.silenceTimer = none →
    (monitorRun cfg s ls).2 = [] ∨ (monitorRun cfg s ls).2 = [MEvent.speechStart] ∨
      (monitorRun cfg s ls).2 = [MEvent.speechStart, MEvent.speechEnd] := by
  induction ls with
  | nil => intro s _ _ _; left; rfl
  | cons db rest ih =>
    intro s hm hs ht
    by_cases hdb : cfg.voiceThreshold < db
    · simp only [monitorRun, monitorStep_idle_open cfg s db hm hs ht hdb]
      rcases monitorRun_speaking cfg rest { s with silenceTimer := none, isSpeaking := true }
          (by simpa using hm) (by simp) with h | h <;> simp [h]
    · simp only [monitorRun, monitorStep_idle_quiet cfg s db hm hs ht hdb]
      simpa using ih s hm hs ht

theorem monitorRun_opens_at_first (cfg : VadConfig) (x : Int) (rest : List Int) :
    ∀ (pre : List Int) (s : MonitorState), s.isMonitoring = true → s.isSpeaking = false →
      s.silenceTimer = none →
    (∀ y ∈ pre, ¬ cfg.voiceThreshold < y) → cfg.voiceThreshold < x →
    ∃ e, (monitorRun cfg s (pre ++ x :: rest)).2 = MEvent.speechStart :: e := by
  intro pre
  induction pre with
  | nil =>
    intro s hm hs ht _ hx
    refine ⟨(monitorRun cfg { s with silenceTimer := none, isSpeaking := true } rest).2, ?_⟩
    simp only [List.nil_append, monitorRun, monitorStep_idle_open cfg s x hm hs ht hx]
    rfl
  | cons y pre ih =>
    intro s hm hs ht hpre hx
    have hy : ¬ cfg.voiceThreshold < y := hpre y (by simp)
    simp only [List.cons_append, monitorRun, monitorStep_idle_quiet cfg s y hm hs ht hy]
    simpa using ih s hm hs ht (fun z hz => hpre z (by simp [hz])) hx

theorem monitorRun_all_quiet (cfg : VadConfig) (ls : List Int) :
    ∀ s : MonitorState, s.isMonitoring = true → s.isSpeaking = false →
      s.silenceTimer = none → (∀ y ∈ ls, ¬ cfg.voiceThreshold < y) →
    (monitorRun cfg s ls).2 = [] := by
  induction ls with
  | nil => intro s _ _ _ _; rfl
  | cons db rest ih =>
    intro s hm hs ht hq
    have hdb : ¬ cfg.voiceThreshold < db := hq db (by simp)
    simp only [monitorRun, monitorStep_idle_quiet cfg s db hm hs ht hdb]
    simpa using ih s hm hs ht (fun z hz => hq z (by simp [hz]))

theorem monitorStep_timer_pending (cfg : VadConfig) (s : MonitorState) (n : Nat) (db : Int)
    (hm : s.isMonitoring = true) (ht : s.silenceTimer = some n) (hn : 1 < n) :
    (cfg.voiceThreshold < db → (monitorStep cfg s db).1.silenceTimer = none) ∧
    (¬ cfg.voiceThreshold < db →
      (monitorStep cfg s db).1.silenceTimer = some (n - 1) ∧ (monitorStep cfg s db).2 = []) := by
  unfold monitorStep
  rw [hm, ht]
  have hn1 : ¬ n ≤ 1 := by omega
  constructor
  · intro hv
    unfold monitorFrame
    by_cases hsp : s.isSpeaking <;> simp [hn1, hv, hsp]
  · intro hv
    unfold monitorFrame
    by_cases hsl : db ≤ cfg.silenceThreshold
    · by_cases hsp : s.isSpeaking <;> simp [hn1, hv, hsl, hsp]
    · simp [hn1, hv, hsl]

/-- C3 (amended): over any sample sequence from the fresh monitoring
state, a span opens at most once and closes at most once after it
(component 1), it opens exactly at the first sample strictly above the
voice threshold (components 2 and 3), and a pending silence timer is
cancelled ONLY by a sample strictly above the VOICE threshold — any
sample at or below the voice threshold, including one in the dead zone
strictly above the silence threshold, leaves the timer counting down
(component 4).  Consequently a dip that rises back only into the dead
zone does not keep the span alive: the claim as stated, that any rise
above the silence threshold cancels the timer, fails on the code. -/
theorem hysteresis_behaviour :
    (∀ (cfg : VadConfig) (ls : List Int),
      (monitorRun cfg initMonitor ls).2 = [] ∨
      (monitorRun cfg initMonitor ls).2 = [MEvent.speechStart] ∨
      (monitorRun cfg initMonitor ls).2 = [MEvent.speechStart, MEvent.speechEnd]) ∧
    (∀ (cfg : VadConfig) (pre : List Int) (x : Int) (rest : List Int),
      (∀ y ∈ pre, ¬ cfg.voiceThreshold < y) → cfg.voiceThreshold < x →
      ∃ e, (monitorRun cfg initMonitor (pre ++ x :: rest)).2 = MEvent.speechStart :: e) ∧
    (∀ (cfg : VadConfig) (ls : List Int), (∀ y ∈ ls, ¬ cfg.voiceThreshold < y) →
      (monitorRun cfg initMonitor ls).2 = []) ∧
    (∀ (cfg : VadConfig) (s : MonitorState) (n : Nat) (db : Int),
      s.isMonitoring = true → s.silenceTimer = some n → 1 < n →
      (cfg.voiceThreshold < db → (monitorStep cfg s db).1.silenceTimer = none) ∧
      (¬ cfg.voiceThreshold < db →
        (monitorStep cfg s db).1.silenceTimer = some (n - 1) ∧
          (monitorStep cfg s db).2 = [])) :=
  ⟨fun cfg ls => monitorRun_idle cfg ls initMonitor rfl rfl rfl,
   fun cfg pre x rest hpre hx =>
     monitorRun_opens_at_first cfg x rest pre initMonitor rfl rfl rfl hpre hx,
   fun cfg ls hq => monitorRun_all_quiet cfg ls initMonitor rfl rfl rfl hq,
   fun cfg s n db hm ht hn => monitorStep_timer_pending cfg s n db hm ht hn⟩

/-- Witness for C3 at the specification scenario: with thresholds −15/−50
and two quiet samples before the first −10, the span opens exactly there. -/
theorem hysteresis_behaviour_witness :
    ∃ e, (monitorRun scenarioVad initMonitor
      ([-60, -60] ++ (-10) :: [-10, -10, -60, -60, -60])).2 = MEvent.speechStart :: e :=
  hysteresis_behaviour.2.1 scenarioVad [-60, -60] (-10) [-10, -10, -60, -60, -60]
    (by decide) (by decide)

/-- C3 counterexample: with the scenario thresholds and a two-tick delay,
the run −10, −60, −40, −40 closes the span — the two −40 samples lie
strictly above the silence threshold −50 yet do not cancel the pending
silence timer, refuting both that a rise above the silence threshold
before the timer fires cancels it and that a span closes only after a
continuous run of at-or-below-silence samples of the configured length. -/
theorem dead_zone_does_not_cancel :
    (monitorRun scenarioVad initMonitor [-10, -60, -40, -40]).2 =
      [MEvent.speechStart, MEvent.speechEnd] ∧
    scenarioVad.silenceThreshold < -40 ∧ (-40 : Int) ≤ scenarioVad.voiceThreshold := by
  decide

/-! ## Speech-queue ordering lemmas (towards C4) -/

theorem startCount_append (a b : List QEvent) :
    startCount (a ++ b) = startCount a + startCount b := by
  induction a with
  | nil => simp [startCount]
  | cons e t ih =>
    cases e with
    | synthReq c => simp [startCount, ih]
    | playStart c => simp [startCount, ih]; omega
    | aiSpeechEnd c => simp [startCount, ih]

theorem endCount_append (a b : List QEvent) :
    endCount (a ++ b) = endCount a + endCount b := by
  induction a with
  | nil => simp [endCount]
  | cons e t ih =>
    cases e with
    | synthReq c => simp [endCount, ih]
    | playStart c => simp [endCount, ih]
    | aiSpeechEnd c => simp [endCount, ih]; omega

theorem synthReqs_sublist (q : List (Str × ChunkOutcome)) :
    List.Sublist (synthReqs (processQueueTrace q)) (q.map Prod.fst) := by
  induction q with
  | nil => simp [processQueueTrace, synthReqs]
  | cons p rest ih =>
    obtain ⟨ch, o⟩ := p
    cases o
    · simpa [processQueueTrace, synthReqs, List.map_cons] using List.Sublist.cons₂ ch ih
    · simpa [processQueueTrace, synthReqs, List.map_cons] using List.Sublist.cons₂ ch ih
    · simp only [processQueueTrace, synthReqs, List.map_cons]
      exact List.Sublist.cons₂ ch (List.nil_sublist _)

theorem playStarts_sublist (q : List (Str × ChunkOutcome)) :
    List.Sublist (playStarts (processQueueTrace q)) (q.map Prod.fst) := by
  induction q with
  | nil => simp [processQueueTrace, playStarts]
  | cons p rest ih =>
    obtain ⟨ch, o⟩ := p
    cases o
    · simpa [processQueueTrace, playStarts, List.map_cons] using List.Sublist.cons₂ ch ih
    · simpa [processQueueTrace, playStarts, List.map_cons] using List.Sublist.cons ch ih
    · simp [processQueueTrace, playStarts, List.map_cons, List.nil_sublist]

theorem processQueueTrace_counts (q : List (Str × ChunkOutcome)) :
    ∀ n, startCount ((processQueueTrace q).take n) ≤
      endCount ((processQueueTrace q).take n) + 1 := by
  induction q with
  | nil => intro n; simp [processQueueTrace, startCount, endCount]
  | cons p rest ih =>
    obtain ⟨ch, o⟩ := p
    cases o
    · intro n
      match n with
      | 0 => simp [startCount, endCount]
      | 1 => simp [processQueueTrace, startCount, endCount]
      | 2 => simp [processQueueTrace, startCount, endCount]
      | Nat.succ (Nat.succ (Nat.succ m)) =>
        have := ih m
        simp only [processQueueTrace, List.take_succ_cons, startCount, endCount] at *
        omega
    · intro n
      match n with
      | 0 => simp [startCount, endCount]
      | Nat.succ m =>
        have := ih m
        simp only [processQueueTrace, List.take_succ_cons, startCount, endCount] at *
        omega
    · intro n
      match n with
      | 0 => simp [startCount, endCount]
      | 1 => simp [processQueueTrace, startCount, endCount]
      | Nat.succ (Nat.succ m) =>
        simp [processQueueTrace, List.take_succ_cons, startCount, endCount]

/-- C4: over one run of the speech-queue processor, synthesis requests are
issued for a prefix-closed subsequence of the queue in enqueue order
(component 1), playback starts follow the exact enqueue order (component
2), at every point of the trace at most one segment has started without
its `AI_SPEECH_END` having fired (component 3), and whenever a playback
starts, every previously started segment has already signalled its end
(component 4) — so the Nth chunk never starts before the (N−1)th chunk's
end signal and no two AI audio segments overlap. -/
theorem speech_queue_fifo_no_overlap (q : List (Str × ChunkOutcome)) :
    (List.Sublist (synthReqs (processQueueTrace q)) (q.map Prod.fst)) ∧
    (List.Sublist (playStarts (processQueueTrace q)) (q.map Prod.fst)) ∧
    (∀ n, startCount ((processQueueTrace q).take n) ≤
      endCount ((processQueueTrace q).take n) + 1) ∧
    (∀ (t₁ : List QEvent) (c : Str) (t₂ : List QEvent),
      processQueueTrace q = t₁ ++ QEvent.playStart c :: t₂ →
      startCount t₁ ≤ endCount t₁) := by
  refine ⟨synthReqs_sublist q, playStarts_sublist q, processQueueTrace_counts q, ?_⟩
  intro t₁ c t₂ hsplit
  have h := processQueueTrace_counts q (t₁.length + 1)
  rw [hsplit] at h
  have htake : (t₁ ++ QEvent.playStart c :: t₂).take (t₁.length + 1) =
      t₁ ++ [QEvent.playStart c] := by
    rw [List.take_append 1]
    simp
  rw [htake, startCount_append, endCount_append] at h
  simp [startCount, endCount] at h
  omega

/-- Witness for C4 at a concrete input: in a two-chunk queue, at the point
where the second playback starts, exactly as many segments have started as
have ended. -/
theorem speech_queue_fifo_no_overlap_witness :
    startCount [QEvent.synthReq ['a'], QEvent.playStart ['a'], QEvent.aiSpeechEnd ['a'],
        QEvent.synthReq ['b']] ≤
      endCount [QEvent.synthReq ['a'], QEvent.playStart ['a'], QEvent.aiSpeechEnd ['a'],
        QEvent.synthReq ['b']] :=
  (speech_queue_fifo_no_overlap [(['a'], ChunkOutcome.ok), (['b'], ChunkOutcome.ok)]).2.2.2
    [QEvent.synthReq ['a'], QEvent.playStart ['a'], QEvent.aiSpeechEnd ['a'],
      QEvent.synthReq ['b']] ['b'] [QEvent.aiSpeechEnd ['b']] (by decide)

/-! ## Playback lifecycle signals (C7) -/

/-- C7 counterexample: after a segment completes naturally (one
`AI_SPEECH_END` from `onended`), the `audioSource` field still holds the
finished node, so a subsequent `stopAIResponse` — a call made while
nothing is playing — emits `AI_SPEECH_END` a second time: the segment
receives two end signals, refuting that `AISpeechEnd` is emitted exactly
once per segment and that stopping when nothing is playing produces no
duplicate emission. -/
theorem stop_after_completion_double_end :
    (runPlay initPlay [PlayAct.play true, PlayAct.natural, PlayAct.stop]).2 =
      [VEvent.aiSpeechStart, VEvent.aiSpeechEnd, VEvent.aiSpeechEnd] ∧
    endEmissions (runPlay initPlay [PlayAct.play true, PlayAct.natural, PlayAct.stop]).2 = 2 := by
  decide

/-- C7 (amended): `AISpeechStart` is emitted synchronously by a successful
`playAIResponse` before playback begins, and a decode failure is absorbed
into a single `AISpeechEnd` with no start signal; a segment that completes
naturally, undisturbed, signals its end exactly once; but the stop path
double-emits: `stopAIResponse` on a playing segment emits directly and the
node's ended callback emits again, and `stopAIResponse` after a natural
completion re-emits for the already-finished node.  Only with the
`audioSource` field empty (for example on a second consecutive stop) is
`stopAIResponse` a silent no-op. -/
theorem playback_end_signals :
    (∀ s : PlayState, playAIResponse true s =
      ({ s with audioSource := some SourceStatus.playing }, [VEvent.aiSpeechStart])) ∧
    (∀ s : PlayState, playAIResponse false s =
      ({ s with audioSource := some SourceStatus.fresh }, [VEvent.aiSpeechEnd])) ∧
    endEmissions (runPlay initPlay [PlayAct.play true, PlayAct.natural]).2 = 1 ∧
    endEmissions (runPlay initPlay [PlayAct.play false]).2 = 1 ∧
    (runPlay initPlay [PlayAct.play true, PlayAct.stop, PlayAct.ended]).2 =
      [VEvent.aiSpeechStart, VEvent.aiSpeechEnd, VEvent.aiSpeechEnd] ∧
    (runPlay initPlay [PlayAct.play true, PlayAct.stop, PlayAct.ended, PlayAct.stop]).2 =
      [VEvent.aiSpeechStart, VEvent.aiSpeechEnd, VEvent.aiSpeechEnd] ∧
    (∀ b : Bool, stopAIResponse ⟨none, b⟩ = (⟨none, b⟩, [])) :=
  ⟨fun _ => rfl, fun _ => rfl, by decide, by decide, by decide, by decide, fun _ => rfl⟩

/-! ## Mutual exclusion of the audio actors (C1) -/

/-- C1: the mutual-exclusion invariant fails on the code.  In the
reachable schedule play-first-chunk, first-chunk `onended`, 500 ms re-arm
timer fires, play-second-chunk — exactly what happens between two chunks
of one AI reply whenever synthesising the second chunk takes longer than
the re-arm delay — the voice-activity monitor, the interruption-detection
loop and the playback controller are all armed at once (three of three).
Moreover `playAIResponse` never touches `isMonitoring`, so starting AI
playback does not disable a running voice-monitor loop, refuting the
claim's in-particular sentence as well. -/
theorem all_three_actors_armed :
    armedCount (sessRun idleSession
      [SessAct.playOk, SessAct.segmentEnd, SessAct.rearmFires, SessAct.playOk]) = 3 ∧
    (sessRun idleSession
      [SessAct.playOk, SessAct.segmentEnd, SessAct.rearmFires, SessAct.playOk]).monitorArmed
        = true ∧
    (sessRun idleSession
      [SessAct.playOk, SessAct.segmentEnd, SessAct.rearmFires, SessAct.playOk]).interruptArmed
        = true ∧
    (sessRun idleSession
      [SessAct.playOk, SessAct.segmentEnd, SessAct.rearmFires, SessAct.playOk]).playing
        = true ∧
    (∀ s : Session, (sessStep SessAct.playOk s).monitorArmed = s.monitorArmed) :=
  ⟨by decide, by decide, by decide, by decide, fun _ => rfl⟩

/-! ## The interruption path (C2) -/

/-- C2: the interruption recovery fails on the code.  The
`USER_INTERRUPTION` emission carries no audio blob, so the listener's
`audioBlob` parameter is `undefined` and `handleUserResponse` returns at
its first guard: for every conversation state the listener is a complete
no-op — the speech queue is not cleared (queued chunks will still be
synthesised and played), no transition to handling the interrupting
speech happens through this event, and no transcription is requested. -/
theorem interruption_event_ignored (conv : ConvState) (tr : Except ErrKind Str)
    (st : StreamOutcome) :
    onUserInterruption conv tr st = (conv, []) ∧
    (onUserInterruption conv tr st).1.speechQueue = conv.speechQueue ∧
    interruptionPayload = none := by
  have h : onUserInterruption conv tr st = (conv, []) := by
    cases h : conv.isProcessing <;>
      simp [onUserInterruption, handleUserResponse, interruptionPayload, h]
  exact ⟨h, by rw [h], rfl⟩

/-! ## Error handling of the reply request (C8) -/

/-- C8 counterexample: a run in which the streaming request fails because
the cancellation token fired (an `AbortError`) still executes the
`console.error` line at the head of the catch block — the abort IS logged
as an error, refuting the claim that it never is.  (The apology path is
indeed skipped.) -/
theorem abort_error_is_logged :
    CEffect.logHandlerError ∈
      (handleUserResponse convActive (some blobOk) (Except.ok ['H', 'i', '.'])
        (StreamOutcome.failed [] ErrKind.abortError)).2 := by
  decide

/-- C8 (amended): an in-flight model request failing with an `AbortError`
skips the apology utterance and the queue/buffer clearing and releases the
processing latch — but it is logged by the shared `console.error` line
first, like every other failure; only a non-abort failure clears the
queue and the sentence batch and speaks the fixed apology while the
session is still active. -/
theorem abort_handled_without_apology (conv : ConvState) (b : Blob) (text : Str)
    (frags : List Str) (hact : conv.isInterviewActive = true) (hsz : 1024 ≤ b.size)
    (htex : trim text ≠ []) :
    (CEffect.apology ∉ (handleUserResponse conv (some b) (Except.ok text)
        (StreamOutcome.failed frags ErrKind.abortError)).2 ∧
      CEffect.logHandlerError ∈ (handleUserResponse conv (some b) (Except.ok text)
        (StreamOutcome.failed frags ErrKind.abortError)).2 ∧
      (handleUserResponse conv (some b) (Except.ok text)
        (StreamOutcome.failed frags ErrKind.abortError)).1.isProcessing = false) ∧
    (CEffect.apology ∈ (handleUserResponse conv (some b) (Except.ok text)
        (StreamOutcome.failed frags ErrKind.otherError)).2 ∧
      (handleUserResponse conv (some b) (Except.ok text)
        (StreamOutcome.failed frags ErrKind.otherError)).1.speechQueue = [] ∧
      (handleUserResponse conv (some b) (Except.ok text)
        (StreamOutcome.failed frags ErrKind.otherError)).1.sentenceBuffer = []) := by
  have h0 : ¬ b.size = 0 := by omega
  have h1 : ¬ b.size < 1024 := by omega
  constructor
  · constructor
    · simp [handleUserResponse, runCatch, h0, h1, hact, htex]
    · constructor
      · simp [handleUserResponse, runCatch, h0, h1, hact, htex]
      · simp [handleUserResponse, runCatch, h0, h1, hact, htex]
  · constructor
    · simp [handleUserResponse, runCatch, ofStreamState, h0, h1, hact, htex]
    · constructor
      · simp [handleUserResponse, runCatch, ofStreamState, h0, h1, hact, htex]
      · simp [handleUserResponse, runCatch, ofStreamState, h0, h1, hact, htex]

/-- Witness for C8 at a concrete input: an aborted reply to the
transcribed text Hi. is not apologised for, in an active interview with a
2048-byte capture. -/
theorem abort_handled_without_apology_witness :
    CEffect.apology ∉ (handleUserResponse convActive (some blobOk) (Except.ok ['H', 'i', '.'])
      (StreamOutcome.failed [] ErrKind.abortError)).2 :=
  (abort_handled_without_apology convActive blobOk ['H', 'i', '.'] []
    (by decide) (by decide) (by decide)).1.1

/-! ## Invalid captures (C9) -/

/-- C9: a `SpeechEnd` whose captured blob is empty or under the 1024-byte
echo floor is discarded with NO effect whatsoever: no transcription
request, the conversation history untouched, not even the processing
latch taken — but also nothing that resumes listening, while the voice
monitor has already disarmed itself when it closed the span (second
component): the discard path leaves the session without any armed
monitor, instead of returning it to listening. -/
theorem invalid_blob_discarded :
    (∀ (conv : ConvState) (tr : Except ErrKind Str) (st : StreamOutcome),
      handleUserResponse conv (some ⟨512⟩) tr st = (conv, []) ∧
      handleUserResponse conv (some ⟨0⟩) tr st = (conv, [])) ∧
    (monitorRun scenarioVad initMonitor [-10, -60, -60, -60]).1.isMonitoring = false :=
  ⟨fun conv _ _ => ⟨by simp [handleUserResponse], by simp [handleUserResponse]⟩, by decide⟩

/-! ## History retention on downstream failure (C10) -/

/-- C10: when transcription succeeds but the streaming request then fails
with a non-abort error, the user turn appended before the stream remains
in the history after the error handler runs — the handler clears the
queue and the sentence buffer but never rolls the history back, and no
assistant turn is appended, so the externally exposed history ends with a
user turn that received no reply. -/
theorem user_turn_not_rolled_back (conv : ConvState) (b : Blob) (text : Str)
    (frags : List Str) (hact : conv.isInterviewActive = true) (hsz : 1024 ≤ b.size)
    (htex : trim text ≠ []) :
    (handleUserResponse conv (some b) (Except.ok text)
        (StreamOutcome.failed frags ErrKind.otherError)).1.conversationHistory =
      conv.conversationHistory ++ [⟨Role.user, text⟩] ∧
    (getConversationHistory (handleUserResponse conv (some b) (Except.ok text)
        (StreamOutcome.failed frags ErrKind.otherError)).1).getLast? =
      some ⟨Role.user, text⟩ := by
  have h0 : ¬ b.size = 0 := by omega
  have h1 : ¬ b.size < 1024 := by omega
  have hh : (handleUserResponse conv (some b) (Except.ok text)
      (StreamOutcome.failed frags ErrKind.otherError)).1.conversationHistory =
      conv.conversationHistory ++ [⟨Role.user, text⟩] := by
    simp [handleUserResponse, runCatch, ofStreamState, h0, h1, hact, htex]
  refine ⟨hh, ?_⟩
  rw [getConversationHistory, hh, List.filter_append]
  rw [show List.filter (fun t => t.role != Role.system) [(⟨Role.user, text⟩ : Turn)] =
    [⟨Role.user, text⟩] from rfl]
  exact List.getLast?_concat _

/-- Witness for C10 at a concrete input: after a failed reply stream in an
active interview, the exposed history ends with the user turn Hi. -/
theorem user_turn_not_rolled_back_witness :
    (handleUserResponse convActive (some blobOk) (Except.ok ['H', 'i', '.'])
        (StreamOutcome.failed [] ErrKind.otherError)).1.conversationHistory =
      convActive.conversationHistory ++ [⟨Role.user, ['H', 'i', '.']⟩] :=
  (user_turn_not_rolled_back convActive blobOk ['H', 'i', '.'] []
    (by decide) (by decide) (by decide)).1

end InterviewSim
